import Mathlib

/-!
Verification of the natural-language specification of `loadconfig.c`
(tjmonk/loadconfig): a recursive configuration-file loader that reads a
root configuration file, interprets the directives `@config`, `@include`,
`@require` and `@includedir`, expands variable references line by line and
applies the resulting name/value pairs to an external variable store.

The C source is shallowly embedded below.  External collaborators
(filesystem, directory enumeration, the template-expansion engine
`TEMPLATE_StrToFile`, and the variable store `VAR_SetNameValue`) are
abstracted as an environment of functions; the mutable `LoadState` that the
C code threads through the traversal becomes an explicitly passed record,
and every processing function additionally returns the (ordered) trace of
store set-calls it performed.  The unbounded `@include` recursion of the C
code is indexed by a fuel parameter consumed on each entry to
`ProcessConfigFile`; for an acyclic include tree of depth `< fuel` the fuel
bound is never reached.
-/

namespace LoadConfig

/-- Error codes used by the program (Linux errno values; `EOK = 0` as in the
varserver headers the source includes). -/
abbrev ErrCode := Nat

/-- Success code. -/
def EOK : ErrCode := 0

/-- errno ENOENT. -/
def ENOENT : ErrCode := 2

/-- errno EINVAL, the initial/failure result of most functions in the source. -/
def EINVAL : ErrCode := 22

/-- errno ENOTSUP, returned for an unknown directive. -/
def ENOTSUP : ErrCode := 95

/-- Configuration tag, `#define CONFIG_TAG "@config"`. -/
def CONFIG_TAG : String := "@config"

/-- External collaborators of the loader, abstracted as pure functions:
* `fs` maps a path (as resolved by the OS relative to the process's current
  working directory) to the byte content of the file, `none` when the file
  is missing or unreadable;
* `dirs` maps a directory path to the list of entry names (`d_name`, bare
  names in filesystem order) produced by `readdir`, `none` when `opendir`
  fails;
* `expand` models `TEMPLATE_StrToFile` followed by reading the working
  buffer back: it returns the status code `rc` and the expanded line (only
  meaningful when `rc = EOK`);
* `setVar` models the status code returned by `VAR_SetNameValue`. -/
structure Env where
  fs : String → Option String
  dirs : String → Option (List String)
  expand : String → ErrCode × String
  setVar : String → String → ErrCode

/-- The fields of the C `LoadState` that the traversal reads or writes
(the varserver handle and the working-buffer plumbing live in `Env`). -/
structure LoadState where
  verbose : Bool
  pFileName : String
  lineno : Nat
  required : Bool
  deriving DecidableEq

/-- Result of one processing function: the returned status code, the
`LoadState` after the call, and the ordered trace of `VAR_SetNameValue`
calls (name, value) it performed. -/
structure Out where
  res : ErrCode
  st : LoadState
  trace : List (String × String)
  deriving DecidableEq

/-- glibc `strtok_r(s, delim, &save)` for a single-character delimiter set,
on immutable strings: returns the token (`none` when the string is empty or
consists only of delimiter characters, in which case glibc leaves the bytes
untouched) and the string designated by the save pointer after the call.
glibc stores the save pointer on every path, so the second component is
never "NULL": when the token runs to the end of the string the save pointer
is left on the terminating NUL, i.e. the empty string. -/
def strtok_r (s : String) (d : Char) : Option String × String :=
  match s.data.dropWhile (fun c => c == d) with
  | [] => (none, "")
  | c :: cs =>
    let tok := (c :: cs).takeWhile (fun x => !(x == d))
    let rest := (c :: cs).dropWhile (fun x => !(x == d))
    (some ⟨tok⟩, ⟨rest.drop 1⟩)

/-- Delimiter selection of `ProcessVariableAssignment`:
`ch = strchr(pConfig, '=') != NULL ? "=" : " "`. -/
def assignDelim (pConfig : String) : Char :=
  if pConfig.data.contains '=' then '=' else ' '

/-- Worker for `configLines`: scans the buffer character by character as the
`ProcessConfigData` loop does.  `cur` holds the (reversed) characters of the
segment currently being accumulated; a newline closes the segment, a NUL
byte closes the segment and ends the scan (the loop sets `done` at the
terminating NUL, so characters after an embedded NUL are never visited). -/
def linesAux (cur : List Char) : List Char → List (List Char)
  | [] => [cur.reverse]
  | c :: rest =>
    if c = '\x00' then [cur.reverse]
    else if c = '\n' then cur.reverse :: linesAux [] rest
    else linesAux (c :: cur) rest

/-- The successive NUL-terminated line strings handed out by the
`ProcessConfigData` scan of `pConfigData` (the loaded buffer is the file
content followed by one NUL, so the segment after the last newline — empty
when the buffer ends in a newline — is also produced). -/
def configLines (pConfigData : String) : List String :=
  (linesAux [] pConfigData.data).map (fun l => ⟨l⟩)

/-- `GetFileSize`: `lstat` size of the file, `0` when it does not exist. -/
def GetFileSize (env : Env) (filename : String) : Nat :=
  match env.fs filename with
  | some content => content.length
  | none => 0

/-- `IsConfigFile`: the first `strlen(CONFIG_TAG)` bytes of the open file
compare equal to `CONFIG_TAG` under `strncmp`. -/
def IsConfigFile (content : String) : Bool :=
  content.data.take CONFIG_TAG.length == CONFIG_TAG.data

/-- `GetConfigData`: fails (returns `none`, the NULL buffer) when the file
size is below the tag length, when `fopen` fails, or when the file does not
begin with the tag; otherwise `ReadConfigData` slurps the whole file into a
NUL-terminated heap buffer, modelled by the content string itself. -/
def GetConfigData (env : Env) (filename : String) : Option String :=
  let taglen := CONFIG_TAG.length
  let filesize := GetFileSize env filename
  if taglen ≤ filesize then
    match env.fs filename with
    | none => none
    | some content => if IsConfigFile content then some content else none
  else none

/-- `ProcessConfigDirective`: with a non-NULL argument the directive always
succeeds (in verbose mode it also prints the info text). -/
def ProcessConfigDirective (pState : LoadState) (pInfo : String) : Out :=
  let _ := pInfo
  ⟨EOK, pState, []⟩

/-- `ProcessVariableAssignment`: chooses `=` as the delimiter when the line
contains one, otherwise a space; tokenizes with `strtok_r`.  With glibc the
value pointer is never NULL after the call, so the "Invalid Variable
Assignment" branch (result stays `EINVAL`, no store call) is taken exactly
when no name token is found, i.e. when the line consists only of delimiter
characters; otherwise `VAR_SetNameValue(name, value)` is called and its
status returned. -/
def ProcessVariableAssignment (env : Env) (pState : LoadState) (pConfig : String) : Out :=
  let ch : Char := assignDelim pConfig
  match strtok_r pConfig ch with
  | (some pVar, pVal) => ⟨env.setVar pVar pVal, pState, [(pVar, pVal)]⟩
  | (none, _) => ⟨EINVAL, pState, []⟩

/-- `ProcessIncludeDirective`: clears the `required` flag and recursively
processes the named file (`processConfigFile` is the recursive entry at the
current fuel). -/
def ProcessIncludeDirective (processConfigFile : LoadState → String → Out)
    (pState : LoadState) (pFilename : String) : Out :=
  processConfigFile { pState with required := false } pFilename

/-- `ProcessRequireDirective`: sets the `required` flag and recursively
processes the named file. -/
def ProcessRequireDirective (processConfigFile : LoadState → String → Out)
    (pState : LoadState) (pFilename : String) : Out :=
  processConfigFile { pState with required := true } pFilename

/-- One iteration of the `readdir` loop of `ProcessIncludeDirDirective`:
clear the `required` flag, process the entry (by its bare `d_name`) as a
configuration file, discard its result code, keep its state and trace. -/
def IncludeDirStep (processConfigFile : LoadState → String → Out)
    (acc : LoadState × List (String × String)) (entry : String) :
    LoadState × List (String × String) :=
  let o := processConfigFile { acc.1 with required := false } entry
  (o.st, acc.2 ++ o.trace)

/-- `ProcessIncludeDirDirective`: `result = EOK` before the directory is
even opened; a failing `opendir` leaves it; otherwise every entry is
processed as a non-required file and all per-entry result codes are
dropped, so the directive always reports `EOK`. -/
def ProcessIncludeDirDirective (env : Env) (processConfigFile : LoadState → String → Out)
    (pState : LoadState) (pDirname : String) : Out :=
  match env.dirs pDirname with
  | none => ⟨EOK, pState, []⟩
  | some entries =>
    let r := entries.foldl (IncludeDirStep processConfigFile) (pState, [])
    ⟨EOK, r.1, r.2⟩

/-- `ProcessDirective`: `strtok_r(pConfigDirective, " ", &pArg)` writes a NUL
over the first space after the first token, so the subsequent `strcmp`s on
`pConfigDirective` see the leading delimiters (none, when the line starts
with `@` as every caller guarantees) followed by the first token; when no
token exists the bytes are untouched.  The directive is dispatched by
string comparison, unknown directives yield `ENOTSUP`. -/
def ProcessDirective (env : Env) (processConfigFile : LoadState → String → Out)
    (pState : LoadState) (pConfigDirective : String) : Out :=
  let pArg := (strtok_r pConfigDirective ' ').2
  let pDirective : String :=
    match (strtok_r pConfigDirective ' ').1 with
    | some tok => ⟨pConfigDirective.data.takeWhile (fun c => c == ' ') ++ tok.data⟩
    | none => pConfigDirective
  if pDirective = "@config" then ProcessConfigDirective pState pArg
  else if pDirective = "@include" then ProcessIncludeDirective processConfigFile pState pArg
  else if pDirective = "@require" then ProcessRequireDirective processConfigFile pState pArg
  else if pDirective = "@includedir" then
    ProcessIncludeDirDirective env processConfigFile pState pArg
  else ⟨ENOTSUP, pState, []⟩

/-- `ProcessConfigLine`: switch on the first character of the (expanded)
line — NUL (empty line) and `#` are ignored with success, `@` dispatches a
directive, anything else is a variable assignment. -/
def ProcessConfigLine (env : Env) (processConfigFile : LoadState → String → Out)
    (pState : LoadState) (pConfigLine : String) : Out :=
  match pConfigLine.data with
  | [] => ⟨EOK, pState, []⟩
  | c :: _ =>
    if c = '\x00' then ⟨EOK, pState, []⟩
    else if c = '#' then ⟨EOK, pState, []⟩
    else if c = '@' then ProcessDirective env processConfigFile pState pConfigLine
    else ProcessVariableAssignment env pState pConfigLine

/-- The while-loop of `ProcessConfigData` over the successive line segments:
each line is first expanded (`TEMPLATE_StrToFile` into the working buffer);
on expansion failure the error is logged and recorded in `result`; on
success `ProcessConfigLine` runs on the expanded line and a failing code is
recorded in `result`.  Either way the line counter is incremented and the
loop continues with the next line, so `result` ends up holding the code of
the last failing line (or its initial value when none failed). -/
def ProcessConfigDataLoop (env : Env) (processConfigFile : LoadState → String → Out) :
    LoadState → ErrCode → List String → Out
  | pState, result, [] => ⟨result, pState, []⟩
  | pState, result, line :: rest =>
    let e := env.expand line
    if e.1 = EOK then
      let o := ProcessConfigLine env processConfigFile pState e.2
      let result1 := if ¬ (o.res = EOK) then o.res else result
      let st1 : LoadState := { o.st with lineno := o.st.lineno + 1 }
      let o2 := ProcessConfigDataLoop env processConfigFile st1 result1 rest
      ⟨o2.res, o2.st, o.trace ++ o2.trace⟩
    else
      let st1 : LoadState := { pState with lineno := pState.lineno + 1 }
      let o2 := ProcessConfigDataLoop env processConfigFile st1 e.1 rest
      ⟨o2.res, o2.st, o2.trace⟩

/-- `ProcessConfigData`: `result` starts at `EOK` and the buffer is
processed one segment (delimited by newline or the final NUL) at a time. -/
def ProcessConfigData (env : Env) (processConfigFile : LoadState → String → Out)
    (pState : LoadState) (pConfigData : String) : Out :=
  ProcessConfigDataLoop env processConfigFile pState EOK (configLines pConfigData)

/-- `ProcessConfigFile`, fuel-indexed (the C recursion is unbounded; each
entry consumes one fuel unit and the fuel-exhausted case returns the
function's initial `EINVAL` result with the state untouched — it is never
reached when the include nesting depth is below the fuel).  The caller's
`pFileName` and `lineno` are saved on entry, the line counter restarts at 1
for the new file, and the saved pair is restored unconditionally before
returning; the `required` flag is neither saved nor restored.  A load
failure (`GetConfigData` returns NULL) yields `EOK` when the file is not
required and leaves the initial `EINVAL` when it is. -/
def ProcessConfigFile (env : Env) : Nat → LoadState → String → Out
  | 0, pState, _ => ⟨EINVAL, pState, []⟩
  | fuel + 1, pState, filename =>
    let saveFileName := pState.pFileName
    let saveLineNumber := pState.lineno
    let st : LoadState := { pState with lineno := 1, pFileName := filename }
    let o : Out :=
      match GetConfigData env filename with
      | some pConfigData =>
        ProcessConfigData env (ProcessConfigFile env fuel) st pConfigData
      | none => if st.required = false then ⟨EOK, st, []⟩ else ⟨EINVAL, st, []⟩
    ⟨o.res, { o.st with pFileName := saveFileName, lineno := saveLineNumber }, o.trace⟩

/-! ### Derived per-line observers

The following definitions decompose the `ProcessConfigData` loop into what
happens on one line: the status code the line contributes, the set-call
trace it emits, and the state the loop carries into the next line.  They
are used to state that the loop never aborts early and accumulates the last
error. -/

/-- Status code contributed by one line: the expansion failure code, or the
result of `ProcessConfigLine` on the expanded line. -/
def lineCode (env : Env) (processConfigFile : LoadState → String → Out)
    (st : LoadState) (line : String) : ErrCode :=
  let e := env.expand line
  if e.1 = EOK then (ProcessConfigLine env processConfigFile st e.2).res else e.1

/-- Set-call trace emitted while processing one line (empty when the
expansion fails, since the line is then abandoned). -/
def lineTrace (env : Env) (processConfigFile : LoadState → String → Out)
    (st : LoadState) (line : String) : List (String × String) :=
  let e := env.expand line
  if e.1 = EOK then (ProcessConfigLine env processConfigFile st e.2).trace else []

/-- State carried into the next line: the state after processing (or
abandoning) the line, with the line counter incremented. -/
def nextLineState (env : Env) (processConfigFile : LoadState → String → Out)
    (st : LoadState) (line : String) : LoadState :=
  let e := env.expand line
  if e.1 = EOK then
    let o := ProcessConfigLine env processConfigFile st e.2
    { o.st with lineno := o.st.lineno + 1 }
  else { st with lineno := st.lineno + 1 }

/-- Status codes of all lines, in order, each computed in the state the
loop reaches it in. -/
def lineCodes (env : Env) (processConfigFile : LoadState → String → Out) :
    LoadState → List String → List ErrCode
  | _, [] => []
  | st, l :: rest =>
    lineCode env processConfigFile st l ::
      lineCodes env processConfigFile (nextLineState env processConfigFile st l) rest

/-- Set-call traces of all lines, in order. -/
def lineTraces (env : Env) (processConfigFile : LoadState → String → Out) :
    LoadState → List String → List (List (String × String))
  | _, [] => []
  | st, l :: rest =>
    lineTrace env processConfigFile st l ::
      lineTraces env processConfigFile (nextLineState env processConfigFile st l) rest

/-- State after all lines have been processed. -/
def linesState (env : Env) (processConfigFile : LoadState → String → Out) :
    LoadState → List String → LoadState
  | st, [] => st
  | st, l :: rest =>
    linesState env processConfigFile (nextLineState env processConfigFile st l) rest

/-- Last non-`EOK` code of the list, or `init` when every code is `EOK`:
the "best-effort accumulation of the last error" policy. -/
def lastError (init : ErrCode) (codes : List ErrCode) : ErrCode :=
  codes.foldl (fun acc c => if c = EOK then acc else c) init

/-! ### Helper lemmas -/

theorem string_eta (s : String) : String.mk s.data = s := by
  cases s
  rfl

theorem string_ne_empty_of_data {s : String} {c : Char} {cs : List Char}
    (h : s.data = c :: cs) : s ≠ "" := by
  intro he
  rw [he] at h
  exact List.noConfusion h

/-- `ProcessConfigFile` restores the caller's file name and line number on
every path (success, load failure, fuel exhaustion). -/
theorem ProcessConfigFile_frame (env : Env) (fuel : Nat) (st : LoadState) (f : String) :
    (ProcessConfigFile env fuel st f).st.pFileName = st.pFileName
      ∧ (ProcessConfigFile env fuel st f).st.lineno = st.lineno := by
  cases fuel with
  | zero => exact ⟨rfl, rfl⟩
  | succ n => exact ⟨rfl, rfl⟩

theorem IncludeDirStep_foldl_lineno (pcf : LoadState → String → Out)
    (hpcf : ∀ st f, (pcf st f).st.lineno = st.lineno) (entries : List String) :
    ∀ acc : LoadState × List (String × String),
      ((entries.foldl (IncludeDirStep pcf) acc).1).lineno = acc.1.lineno := by
  induction entries with
  | nil => intro acc; rfl
  | cons e rest ih =>
    intro acc
    rw [List.foldl_cons, ih]
    exact hpcf _ e

theorem ProcessDirective_lineno (env : Env) (pcf : LoadState → String → Out)
    (hpcf : ∀ st f, (pcf st f).st.lineno = st.lineno) (st : LoadState) (l : String) :
    (ProcessDirective env pcf st l).st.lineno = st.lineno := by
  unfold ProcessDirective
  split <;> dsimp only <;> split_ifs <;>
    first
    | rfl
    | exact hpcf _ _
    | (unfold ProcessIncludeDirDirective
       split
       · rfl
       · exact IncludeDirStep_foldl_lineno pcf hpcf _ _)

theorem ProcessVariableAssignment_st (env : Env) (st : LoadState) (l : String) :
    (ProcessVariableAssignment env st l).st = st := by
  unfold ProcessVariableAssignment
  dsimp only
  split <;> rfl

theorem ProcessConfigLine_lineno (env : Env) (pcf : LoadState → String → Out)
    (hpcf : ∀ st f, (pcf st f).st.lineno = st.lineno) (st : LoadState) (l : String) :
    (ProcessConfigLine env pcf st l).st.lineno = st.lineno := by
  unfold ProcessConfigLine
  split
  · rfl
  split
  · rfl
  split
  · rfl
  split
  · exact ProcessDirective_lineno env pcf hpcf st l
  · rw [ProcessVariableAssignment_st]

theorem dropWhile_head_false {α : Type} (p : α → Bool) (l : List α) :
    ∀ (c : α) (cs : List α), l.dropWhile p = c :: cs → p c = false := by
  induction l with
  | nil => intro c cs h; exact List.noConfusion h
  | cons a t ih =>
    intro c cs h
    by_cases ha : p a = true
    · rw [List.dropWhile_cons_of_pos ha] at h
      exact ih c cs h
    · rw [List.dropWhile_cons_of_neg ha] at h
      cases h
      exact Bool.eq_false_iff.mpr ha

theorem dropWhile_beq_cons_ne (d c : Char) (cs : List Char) (h : ¬ c = d) :
    (c :: cs).dropWhile (fun x => x == d) = c :: cs := by
  simp [List.dropWhile_cons, h]

theorem take_until_delim (d : Char) (l2 : List Char) :
    ∀ l1 : List Char, (∀ x ∈ l1, ¬ x = d) →
      (l1 ++ d :: l2).takeWhile (fun x => !(x == d)) = l1 := by
  intro l1
  induction l1 with
  | nil => intro _; simp [List.takeWhile_cons]
  | cons a t ih =>
    intro h
    have ha : ¬ a = d := h a (List.mem_cons_self a t)
    have ht := ih (fun x hx => h x (List.mem_cons_of_mem a hx))
    simp [List.cons_append, List.takeWhile_cons, ha, ht]

theorem drop_from_delim (d : Char) (l2 : List Char) :
    ∀ l1 : List Char, (∀ x ∈ l1, ¬ x = d) →
      (l1 ++ d :: l2).dropWhile (fun x => !(x == d)) = d :: l2 := by
  intro l1
  induction l1 with
  | nil => intro _; simp [List.dropWhile_cons]
  | cons a t ih =>
    intro h
    have ha : ¬ a = d := h a (List.mem_cons_self a t)
    have ht := ih (fun x hx => h x (List.mem_cons_of_mem a hx))
    simp [List.cons_append, List.dropWhile_cons, ha, ht]

/-- Tokenization of a string of the shape `token ++ delim ++ remainder`
where the token is non-empty and delimiter-free: `strtok_r` yields exactly
the token and the remainder. -/
theorem strtok_r_sep {s : String} {d : Char} {c : Char} {cs l2 : List Char}
    (hs : s.data = (c :: cs) ++ d :: l2) (h2 : ∀ x ∈ c :: cs, ¬ x = d) :
    strtok_r s d = (some ⟨c :: cs⟩, ⟨l2⟩) := by
  have hc : ¬ c = d := h2 c (List.mem_cons_self c cs)
  unfold strtok_r
  rw [hs, List.cons_append, dropWhile_beq_cons_ne d c _ hc]
  simp only [← List.cons_append, take_until_delim d l2 _ h2, drop_from_delim d l2 _ h2,
    List.drop_succ_cons, List.drop_zero]

theorem takeWhile_not_beq_cons (d c : Char) (cs : List Char) (hc : ¬ c = d) :
    (c :: cs).takeWhile (fun x => !(x == d)) = c :: cs.takeWhile (fun x => !(x == d)) := by
  simp [List.takeWhile_cons, hc]

theorem take_no_delim (d : Char) :
    ∀ l : List Char, (∀ x ∈ l, ¬ x = d) → l.takeWhile (fun x => !(x == d)) = l := by
  intro l
  induction l with
  | nil => intro _; rfl
  | cons a t ih =>
    intro h
    have ha : ¬ a = d := h a (List.mem_cons_self a t)
    have ht := ih (fun x hx => h x (List.mem_cons_of_mem a hx))
    simp [List.takeWhile_cons, ha, ht]

theorem drop_no_delim (d : Char) :
    ∀ l : List Char, (∀ x ∈ l, ¬ x = d) → l.dropWhile (fun x => !(x == d)) = [] := by
  intro l
  induction l with
  | nil => intro _; rfl
  | cons a t ih =>
    intro h
    have ha : ¬ a = d := h a (List.mem_cons_self a t)
    have ht := ih (fun x hx => h x (List.mem_cons_of_mem a hx))
    simp [List.dropWhile_cons, ha, ht]

/-- Tokenization of a non-empty string containing no delimiter character at
all: the token is the whole string and the save pointer is left on the
terminating NUL, i.e. the remainder is the empty string. -/
theorem strtok_r_no_delim {s : String} {d : Char} {c : Char} {cs : List Char}
    (hs : s.data = c :: cs) (h : ∀ x ∈ c :: cs, ¬ x = d) :
    strtok_r s d = (some ⟨c :: cs⟩, "") := by
  have hc : ¬ c = d := h c (List.mem_cons_self c cs)
  unfold strtok_r
  rw [hs, dropWhile_beq_cons_ne d c _ hc]
  simp only [take_no_delim d _ h, drop_no_delim d _ h, List.drop_nil]

/-- `strtok_r` finds no token exactly when the string consists only of
delimiter characters (in particular when it is empty). -/
theorem strtok_r_none_iff (s : String) (d : Char) :
    (strtok_r s d).1 = none ↔ s.data.all (fun c => c == d) = true := by
  unfold strtok_r
  rcases h : s.data.dropWhile (fun c => c == d) with _ | ⟨c, cs⟩
  · simp only [List.all_eq_true]
    constructor
    · intro _
      exact fun x hx => List.dropWhile_eq_nil_iff.1 h x hx
    · intro _
      trivial
  · simp only [List.all_eq_true]
    constructor
    · intro hfalse
      exact absurd hfalse (by simp)
    · intro hall
      have : s.data.dropWhile (fun c => c == d) = [] :=
        List.dropWhile_eq_nil_iff.2 fun x hx => hall x hx
      rw [this] at h
      exact absurd h (by simp)

/-- A token returned by `strtok_r` is never the empty string. -/
theorem strtok_r_tok_ne_empty (s : String) (d : Char) (tok rest : String)
    (h : strtok_r s d = (some tok, rest)) : tok ≠ "" := by
  unfold strtok_r at h
  rcases hd : s.data.dropWhile (fun c => c == d) with _ | ⟨c, cs⟩
  · rw [hd] at h
    exact absurd h (by simp)
  · rw [hd] at h
    have hc : (c == d) = false :=
      dropWhile_head_false (fun x => x == d) s.data c cs hd
    have hc' : ¬ c = d := by simpa using hc
    simp only [Prod.mk.injEq, Option.some.injEq] at h
    obtain ⟨h1, _⟩ := h
    rw [takeWhile_not_beq_cons d c cs hc'] at h1
    rw [← h1]
    exact string_ne_empty_of_data rfl

theorem data_of_ne_empty {s : String} (h : s ≠ "") : ∃ c cs, s.data = c :: cs := by
  rcases hd : s.data with _ | ⟨c, cs⟩
  · have : s = "" := String.ext (by rw [hd])
    exact absurd this h
  · exact ⟨c, cs, rfl⟩

theorem assignDelim_of_mem {line : String} (h : '=' ∈ line.data) :
    assignDelim line = '=' := by
  simp [assignDelim, List.contains, h]

theorem assignDelim_of_not_mem {line : String} (h : ¬ '=' ∈ line.data) :
    assignDelim line = ' ' := by
  simp [assignDelim, List.contains, h]

/-- Reduction of `ProcessVariableAssignment` once the tokenization is
known: the store is called with the token and the remainder. -/
theorem ProcessVariableAssignment_eq (env : Env) (st : LoadState) (line tok rest : String)
    (h : strtok_r line (assignDelim line) = (some tok, rest)) :
    ProcessVariableAssignment env st line
      = ⟨env.setVar tok rest, st, [(tok, rest)]⟩ := by
  unfold ProcessVariableAssignment
  dsimp only
  rw [h]

/-- `ProcessVariableAssignment` on a line of the shape
`name ++ delim ++ value` where the chosen delimiter is `delim` and the name
is non-empty and delimiter-free: exactly one set-call, with exactly the
name and value. -/
theorem ProcessVariableAssignment_split (env : Env) (st : LoadState) (d : Char)
    (line name value : String)
    (hl : line.data = name.data ++ d :: value.data)
    (hdelim : assignDelim line = d)
    (hname : name ≠ "")
    (hnod : ∀ x ∈ name.data, ¬ x = d) :
    ProcessVariableAssignment env st line
      = ⟨env.setVar name value, st, [(name, value)]⟩ := by
  obtain ⟨c, cs, hdata⟩ := data_of_ne_empty hname
  have hs' : line.data = (c :: cs) ++ d :: value.data := by rw [hl, hdata]
  have h2' : ∀ x ∈ c :: cs, ¬ x = d := by rw [← hdata]; exact hnod
  have htok := strtok_r_sep hs' h2'
  rw [← hdata] at htok
  simp only [string_eta] at htok
  rw [← hdelim] at htok
  exact ProcessVariableAssignment_eq env st line name value htok

/-- Full characterization of the `ProcessConfigData` loop by the per-line
observers: the final code is the last failing line's code (the accumulator
when none fails), the final state is the state after every line, and the
trace is the concatenation of every line's trace — i.e. a failing line
never prevents the following lines from being processed. -/
theorem ProcessConfigDataLoop_characterization (env : Env)
    (pcf : LoadState → String → Out) (lines : List String) :
    ∀ (st : LoadState) (result : ErrCode),
      ProcessConfigDataLoop env pcf st result lines
        = ⟨lastError result (lineCodes env pcf st lines),
           linesState env pcf st lines,
           (lineTraces env pcf st lines).flatten⟩ := by
  induction lines with
  | nil => intro st result; rfl
  | cons l rest ih =>
    intro st result
    rw [ProcessConfigDataLoop]
    simp only [lineCodes, lineTraces, linesState, lineCode, lineTrace, nextLineState,
      lastError, List.foldl_cons, List.flatten_cons]
    by_cases h : (env.expand l).1 = EOK
    · simp only [if_pos h, ih]
      have hres : (if ¬ ((ProcessConfigLine env pcf st (env.expand l).2).res = EOK)
            then (ProcessConfigLine env pcf st (env.expand l).2).res else result)
          = (if (ProcessConfigLine env pcf st (env.expand l).2).res = EOK
            then result else (ProcessConfigLine env pcf st (env.expand l).2).res) := by
        by_cases hc : (ProcessConfigLine env pcf st (env.expand l).2).res = EOK <;>
          simp [hc]
      rw [hres]
      rfl
    · simp only [if_neg h, ih]
      rfl

theorem GetFileSize_some {env : Env} {f : String} {c : String}
    (h : env.fs f = some c) : GetFileSize env f = c.length := by
  unfold GetFileSize
  rw [h]

theorem GetFileSize_none {env : Env} {f : String}
    (h : env.fs f = none) : GetFileSize env f = 0 := by
  unfold GetFileSize
  rw [h]

/-- Splitting distributes over an (embedded-NUL-free) prefix followed by a
newline: the scan emits the prefix's segments and then scans the rest. -/
theorem linesAux_append_newline :
    ∀ (l1 : List Char), ¬ '\x00' ∈ l1 → ∀ (cur l2 : List Char),
      linesAux cur (l1 ++ '\n' :: l2) = linesAux cur l1 ++ linesAux [] l2 := by
  intro l1
  induction l1 with
  | nil =>
    intro _ cur l2
    simp [linesAux]
  | cons a t ih =>
    intro h cur l2
    have ha : ¬ a = '\x00' := fun he => h (he ▸ List.mem_cons_self a t)
    have ht := ih (fun hm => h (List.mem_cons_of_mem a hm))
    by_cases han : a = '\n'
    · subst han
      simp [linesAux, ht]
    · simp [linesAux, ha, han, ht]

/-- A scan of a segment containing neither a NUL nor a newline yields that
single segment appended to the accumulator. -/
theorem linesAux_plain :
    ∀ (l : List Char), ¬ '\x00' ∈ l → ¬ '\n' ∈ l → ∀ cur : List Char,
      linesAux cur l = [cur.reverse ++ l] := by
  intro l
  induction l with
  | nil =>
    intro _ _ cur
    simp [linesAux]
  | cons a t ih =>
    intro h0 h1 cur
    have ha0 : ¬ a = '\x00' := fun he => h0 (he ▸ List.mem_cons_self a t)
    have ha1 : ¬ a = '\n' := fun he => h1 (he ▸ List.mem_cons_self a t)
    have ht := ih (fun hm => h0 (List.mem_cons_of_mem a hm))
      (fun hm => h1 (List.mem_cons_of_mem a hm))
    simp [linesAux, ha0, ha1, ht]

theorem nextLineState_lineno (env : Env) (pcf : LoadState → String → Out)
    (hpcf : ∀ st f, (pcf st f).st.lineno = st.lineno) (st : LoadState) (l : String) :
    (nextLineState env pcf st l).lineno = st.lineno + 1 := by
  unfold nextLineState
  dsimp only
  by_cases h : (env.expand l).1 = EOK
  · rw [if_pos h]
    simp [ProcessConfigLine_lineno env pcf hpcf]
  · rw [if_neg h]

theorem linesState_lineno (env : Env) (pcf : LoadState → String → Out)
    (hpcf : ∀ st f, (pcf st f).st.lineno = st.lineno) (lines : List String) :
    ∀ st : LoadState,
      (linesState env pcf st lines).lineno = st.lineno + lines.length := by
  induction lines with
  | nil => intro st; rfl
  | cons l rest ih =>
    intro st
    rw [linesState, ih, nextLineState_lineno env pcf hpcf]
    simp
    omega

/-! ### Concrete environments and states used to instantiate the claims -/

/-- Environment with no files and no directories, identity expansion and an
always-successful store. -/
def env0 : Env := ⟨fun _ => none, fun _ => none, fun s => (EOK, s), fun _ _ => EOK⟩

/-- State of a caller processing line 5 of `root.cfg` with a mandatory file. -/
def st0 : LoadState := ⟨false, "root.cfg", 5, true⟩

/-- State of a caller processing line 5 of `root.cfg` with an optional file. -/
def stOpt0 : LoadState := ⟨false, "root.cfg", 5, false⟩

/-- State of a caller processing line 7 of `caller.cfg` with the required
flag set. -/
def stx : LoadState := ⟨false, "caller.cfg", 7, true⟩

/-- Environment holding a single valid configuration file `a.cfg`. -/
def envC3 : Env :=
  ⟨fun n => if n = "a.cfg" then some "@config demo\n/x 1\n" else none,
   fun _ => none, fun s => (EOK, s), fun _ _ => EOK⟩

/-- Environment with a directory `conf.d` holding one valid configuration
file and one plain text file. -/
def envDir : Env :=
  ⟨fun n =>
      if n = "good.cfg" then some "@config good\n/a 1\n"
      else if n = "junk.txt" then some "hello world, not a config"
      else none,
   fun n => if n = "conf.d" then some ["good.cfg", "junk.txt"] else none,
   fun s => (EOK, s), fun _ _ => EOK⟩

/-- Environment where the directory `conf.d` lists the entry `a.cfg` and a
valid configuration file exists at the path `conf.d/a.cfg`, but no file
exists at the bare path `a.cfg` (paths are as resolved from the process's
current working directory). -/
def envCwd : Env :=
  ⟨fun n => if n = "conf.d/a.cfg" then some "@config cwd\n/x 1\n" else none,
   fun n => if n = "conf.d" then some ["a.cfg"] else none,
   fun s => (EOK, s), fun _ _ => EOK⟩

/-- Environment with a file shorter than the tag, a file not starting with
the tag, and a valid configuration file. -/
def env7 : Env :=
  ⟨fun n =>
      if n = "short.cfg" then some "@c"
      else if n = "plain.txt" then some "hello world"
      else if n = "good.cfg" then some "@config ok\n/a 1\n"
      else none,
   fun _ => none, fun s => (EOK, s), fun _ _ => EOK⟩

/-! ### The claims -/

/-- C1: when loading the target fails the config-tag check
(`GetConfigData` returns NULL because the file is missing, too short, or
lacks the leading tag), `ProcessConfigFile` returns `EOK` if the file is
not required and the error `EINVAL` (≠ `EOK`) if it is; in particular an
`@include` of such a file yields success and an `@require` of such a file
propagates the failure to the caller. -/
theorem claim_C1 (env : Env) (fuel : Nat) (st stOpt : LoadState) (f : String)
    (hfail : GetConfigData env f = none)
    (hreq : st.required = true) (hopt : stOpt.required = false) :
    (ProcessConfigFile env (fuel + 1) stOpt f).res = EOK
    ∧ (ProcessConfigFile env (fuel + 1) st f).res = EINVAL
    ∧ (ProcessIncludeDirective (ProcessConfigFile env (fuel + 1)) st f).res = EOK
    ∧ (ProcessRequireDirective (ProcessConfigFile env (fuel + 1)) st f).res = EINVAL
    ∧ ¬ EINVAL = EOK := by
  refine ⟨?_, ?_, ?_, ?_, by decide⟩
  · simp only [ProcessConfigFile, hfail]
    simp [hopt]
  · simp only [ProcessConfigFile, hfail]
    simp [hreq]
  · unfold ProcessIncludeDirective
    simp only [ProcessConfigFile, hfail]
    simp
  · unfold ProcessRequireDirective
    simp only [ProcessConfigFile, hfail]
    simp

/-- Witness for C1 at a concrete missing file. -/
theorem claim_C1_witness :
    (GetConfigData env0 "missing.cfg" = none
      ∧ st0.required = true ∧ stOpt0.required = false)
    ∧ (ProcessConfigFile env0 1 stOpt0 "missing.cfg").res = EOK
    ∧ (ProcessConfigFile env0 1 st0 "missing.cfg").res = EINVAL
    ∧ (ProcessIncludeDirective (ProcessConfigFile env0 1) st0 "missing.cfg").res = EOK
    ∧ (ProcessRequireDirective (ProcessConfigFile env0 1) st0 "missing.cfg").res = EINVAL
    ∧ ¬ EINVAL = EOK :=
  ⟨⟨rfl, rfl, rfl⟩, claim_C1 env0 0 st0 stOpt0 "missing.cfg" rfl rfl rfl⟩

/-- C2: the per-line decomposition of a whole configuration buffer: the
aggregate result is the code of the last failing line (`EOK` when none
fails), the set-call trace is the concatenation of every line's trace, and
the final state is reached by stepping through every line — a failing line
never aborts the file early. -/
theorem claim_C2 (env : Env) (pcf : LoadState → String → Out)
    (st : LoadState) (data : String) :
    (ProcessConfigData env pcf st data).res
      = lastError EOK (lineCodes env pcf st (configLines data))
    ∧ (ProcessConfigData env pcf st data).trace
      = (lineTraces env pcf st (configLines data)).flatten
    ∧ (ProcessConfigData env pcf st data).st
      = linesState env pcf st (configLines data) := by
  unfold ProcessConfigData
  rw [ProcessConfigDataLoop_characterization]
  exact ⟨rfl, rfl, rfl⟩

/-- C3: every invocation of `ProcessConfigFile` restores the caller's
(fileName, lineNumber) pair unconditionally — also when the nested call
fails — and, when the target loads, its data is processed from a state
whose line counter is 1 and whose file name is the target. -/
theorem claim_C3 (env : Env) (fuel : Nat) (st : LoadState) (f g data : String)
    (hload : GetConfigData env f = some data) :
    ((ProcessConfigFile env fuel st g).st.pFileName = st.pFileName
      ∧ (ProcessConfigFile env fuel st g).st.lineno = st.lineno)
    ∧ (ProcessConfigFile env (fuel + 1) st f).res
        = (ProcessConfigData env (ProcessConfigFile env fuel)
            { st with lineno := 1, pFileName := f } data).res
    ∧ (ProcessConfigFile env (fuel + 1) st f).trace
        = (ProcessConfigData env (ProcessConfigFile env fuel)
            { st with lineno := 1, pFileName := f } data).trace := by
  refine ⟨ProcessConfigFile_frame env fuel st g, ?_, ?_⟩ <;>
    simp only [ProcessConfigFile, hload]

/-- Witness for C3: `a.cfg` loads, `missing.cfg` fails (with the caller's
required flag set!), and in both cases file name and line number of the
caller survive. -/
theorem claim_C3_witness :
    GetConfigData envC3 "a.cfg" = some "@config demo\n/x 1\n"
    ∧ (((ProcessConfigFile envC3 1 st0 "missing.cfg").st.pFileName = st0.pFileName
        ∧ (ProcessConfigFile envC3 1 st0 "missing.cfg").st.lineno = st0.lineno)
      ∧ (ProcessConfigFile envC3 2 st0 "a.cfg").res
          = (ProcessConfigData envC3 (ProcessConfigFile envC3 1)
              { st0 with lineno := 1, pFileName := "a.cfg" } "@config demo\n/x 1\n").res
      ∧ (ProcessConfigFile envC3 2 st0 "a.cfg").trace
          = (ProcessConfigData envC3 (ProcessConfigFile envC3 1)
              { st0 with lineno := 1, pFileName := "a.cfg" } "@config demo\n/x 1\n").trace) :=
  ⟨rfl, claim_C3 envC3 1 st0 "a.cfg" "missing.cfg" "@config demo\n/x 1\n" rfl⟩

/-- C4 counterexample: the claim says the caller's required flag equals its
prior value after any directive-triggered recursion; but after processing
`@include x.cfg` from a state whose required flag is `true`, the flag is
`false` — `ProcessConfigFile` saves and restores only (fileName, lineno),
not the required flag. -/
theorem claim_C4_cex :
    stx.required = true
    ∧ (ProcessDirective env0 (ProcessConfigFile env0 1) stx "@include x.cfg").st.required
        = false :=
  ⟨rfl, by decide⟩

/-- C4 (amended): at every point one (file, line, required) triple is
active in the threaded state; every recursive call saves and restores the
caller's (fileName, lineNumber) — but not the required flag: `@include`
(resp. `@require`) simply sets the flag to `false` (resp. `true`) before
recursing and the recursion leaves whatever value was last set. -/
theorem claim_C4 (env : Env) (fuel : Nat) (st : LoadState) (g f : String)
    (pcf : LoadState → String → Out) :
    ((ProcessConfigFile env fuel st g).st.pFileName = st.pFileName
      ∧ (ProcessConfigFile env fuel st g).st.lineno = st.lineno)
    ∧ ProcessIncludeDirective pcf st f = pcf { st with required := false } f
    ∧ ProcessRequireDirective pcf st f = pcf { st with required := true } f :=
  ⟨ProcessConfigFile_frame env fuel st g, rfl, rfl⟩

/-- C5 counterexample: the claim says a line whose value (after splitting
at the first `=`) is empty-named yields `InvalidAssignment` with no store
call; but on the line `=a=b` (empty name before the first `=`) the code
calls the store with `("a", "b")` — `strtok_r` skips leading delimiters —
and returns the store's code (`EOK` here), not `EINVAL`. -/
theorem claim_C5_cex :
    (ProcessVariableAssignment env0 st0 "=a=b").trace = [("a", "b")]
    ∧ (ProcessVariableAssignment env0 st0 "=a=b").res = EOK
    ∧ ¬ EOK = EINVAL := by
  refine ⟨by decide, by decide, by decide⟩

/-- C5 (amended): splitting skips leading delimiter characters and takes
the first maximal run of non-delimiter characters as the name; the value is
whatever follows the delimiter after that run (possibly empty).  The result
is `InvalidAssignment` (`EINVAL`) with no set-call exactly when no token is
found, i.e. when the line consists only of delimiter characters; otherwise
the name token is non-empty, the store is called once with the token and
the remainder, and the store's code is returned.  Processing of the
enclosing file continues either way (the state is returned unchanged). -/
theorem claim_C5 (env : Env) (st : LoadState) (line line2 tok rest : String)
    (hsome : strtok_r line (assignDelim line) = (some tok, rest))
    (hnone : (strtok_r line2 (assignDelim line2)).1 = none) :
    (tok ≠ ""
      ∧ (ProcessVariableAssignment env st line).res = env.setVar tok rest
      ∧ (ProcessVariableAssignment env st line).trace = [(tok, rest)]
      ∧ (ProcessVariableAssignment env st line).st = st)
    ∧ ((ProcessVariableAssignment env st line2).res = EINVAL
      ∧ (ProcessVariableAssignment env st line2).trace = []
      ∧ (ProcessVariableAssignment env st line2).st = st)
    ∧ ((strtok_r line2 (assignDelim line2)).1 = none
        ↔ line2.data.all (fun c => c == assignDelim line2) = true) := by
  refine ⟨⟨strtok_r_tok_ne_empty line (assignDelim line) tok rest hsome, ?_, ?_, ?_⟩,
    ⟨?_, ?_, ?_⟩, strtok_r_none_iff line2 (assignDelim line2)⟩
  · rw [ProcessVariableAssignment_eq env st line tok rest hsome]
  · rw [ProcessVariableAssignment_eq env st line tok rest hsome]
  · rw [ProcessVariableAssignment_eq env st line tok rest hsome]
  all_goals
    unfold ProcessVariableAssignment
    dsimp only
    rcases hx : strtok_r line2 (assignDelim line2) with ⟨t, r⟩
    rw [hx] at hnone
    simp only at hnone
    subst hnone
    rfl

/-- Witness for C5: the line `a b` splits into token `a` and remainder `b`;
the all-delimiter line `  ` finds no token. -/
theorem claim_C5_witness :
    (strtok_r "a b" (assignDelim "a b") = (some "a", "b")
      ∧ (strtok_r "  " (assignDelim "  ")).1 = none)
    ∧ ("a" ≠ ""
      ∧ (ProcessVariableAssignment env0 st0 "a b").res = env0.setVar "a" "b"
      ∧ (ProcessVariableAssignment env0 st0 "a b").trace = [("a", "b")]
      ∧ (ProcessVariableAssignment env0 st0 "a b").st = st0)
    ∧ ((ProcessVariableAssignment env0 st0 "  ").res = EINVAL
      ∧ (ProcessVariableAssignment env0 st0 "  ").trace = []
      ∧ (ProcessVariableAssignment env0 st0 "  ").st = st0)
    ∧ ((strtok_r "  " (assignDelim "  ")).1 = none
        ↔ ("  " : String).data.all (fun c => c == assignDelim "  ") = true) :=
  ⟨⟨by decide, by decide⟩,
    (claim_C5 env0 st0 "a b" "  " "a" "b" (by decide) (by decide)).1,
    (claim_C5 env0 st0 "a b" "  " "a" "b" (by decide) (by decide)).2.1,
    (claim_C5 env0 st0 "a b" "  " "a" "b" (by decide) (by decide)).2.2⟩

/-- C6 counterexample: the claim's delimiter is "the first whitespace run"
with name and value trimmed at it, but the code splits only at the first
literal space character: on the line `a  b` (two spaces — name `a`, value
`b` under the claim's whitespace-run reading) the store's single set-call
carries the value ` b` with the second space kept, not `b`; and a line
whose name and value are separated by a tab is not split at all — the
store is called with the whole line as the name and an empty value. -/
theorem claim_C6_cex :
    ((ProcessVariableAssignment env0 st0 "a  b").trace = [("a", " b")]
      ∧ ¬ (" b" : String) = "b")
    ∧ ((ProcessVariableAssignment env0 st0 "a\tb").trace = [("a\tb", "")]
      ∧ ¬ ("a\tb" : String) = "a") := by
  exact ⟨⟨by decide, by decide⟩, ⟨by decide, by decide⟩⟩

/-- C6 (amended): the delimiter is the first `=` when the line contains
one, and otherwise the first literal space character — not a whitespace
run.  For a line `name ++ ' ' ++ value` (no `=` anywhere, name non-empty
and space-free) the store receives exactly one set-call `(name, value)`
where `value` is everything after that first space (a further space stays
at the head of the value); for `name ++ '=' ++ value` (name non-empty and
`=`-free) exactly one set-call `(name, value)`; a non-empty line containing
neither `=` nor a space — tabs are not delimiters — yields the single
set-call `(line, "")`.  Set-calls occur in file order: the round-trip input
`/sys/x 1\n/sys/y=2\n` under identity expansion produces `("/sys/x", "1")`
then `("/sys/y", "2")` in that order. -/
theorem claim_C6 (env env2 : Env) (pcf2 : LoadState → String → Out)
    (st st2 : LoadState) (name value name2 value2 line1 line2 line3 : String)
    (h1 : name ≠ "") (_h1v : value ≠ "")
    (h2 : ¬ ' ' ∈ name.data) (h3 : ¬ '=' ∈ name.data) (h4 : ¬ '=' ∈ value.data)
    (hl1 : line1.data = name.data ++ ' ' :: value.data)
    (h5 : name2 ≠ "") (_h5v : value2 ≠ "") (h6 : ¬ '=' ∈ name2.data)
    (hl2 : line2.data = name2.data ++ '=' :: value2.data)
    (h7 : line3 ≠ "") (h8 : ¬ ' ' ∈ line3.data) (h9 : ¬ '=' ∈ line3.data)
    (hexp : ∀ s, env2.expand s = (EOK, s)) :
    ProcessVariableAssignment env st line1
      = ⟨env.setVar name value, st, [(name, value)]⟩
    ∧ ProcessVariableAssignment env st line2
      = ⟨env.setVar name2 value2, st, [(name2, value2)]⟩
    ∧ ProcessVariableAssignment env st line3
      = ⟨env.setVar line3 "", st, [(line3, "")]⟩
    ∧ (ProcessConfigData env2 pcf2 st2 "/sys/x 1\n/sys/y=2\n").trace
        = [("/sys/x", "1"), ("/sys/y", "2")] := by
  refine ⟨?_, ?_, ?_, ?_⟩
  · have hdelim : assignDelim line1 = ' ' := by
      refine assignDelim_of_not_mem ?_
      rw [hl1]
      simp only [List.mem_append, List.mem_cons]
      push_neg
      exact ⟨h3, by decide, h4⟩
    exact ProcessVariableAssignment_split env st ' ' line1 name value hl1 hdelim h1
      (fun x hx hxe => h2 (hxe ▸ hx))
  · have hdelim : assignDelim line2 = '=' := by
      refine assignDelim_of_mem ?_
      rw [hl2]
      simp
    exact ProcessVariableAssignment_split env st '=' line2 name2 value2 hl2 hdelim h5
      (fun x hx hxe => h6 (hxe ▸ hx))
  · have hdelim : assignDelim line3 = ' ' := assignDelim_of_not_mem h9
    obtain ⟨c, cs, hdata⟩ := data_of_ne_empty h7
    have hnod : ∀ x ∈ c :: cs, ¬ x = ' ' := by
      rw [← hdata]
      exact fun x hx hxe => h8 (hxe ▸ hx)
    have htok := strtok_r_no_delim hdata hnod
    rw [← hdata] at htok
    simp only [string_eta] at htok
    rw [← hdelim] at htok
    exact ProcessVariableAssignment_eq env st line3 line3 "" htok
  · obtain ⟨fs2, dirs2, expand2, setVar2⟩ := env2
    have hfun : expand2 = fun s => (EOK, s) := funext hexp
    subst hfun
    rfl

/-- Witness for C6 on the lines `a b`, `a=b` and the tab-separated,
never-split line `a\tb`. -/
theorem claim_C6_witness :
    (("a b" : String).data = ("a" : String).data ++ ' ' :: ("b" : String).data
      ∧ ("a=b" : String).data = ("a" : String).data ++ '=' :: ("b" : String).data
      ∧ ¬ ' ' ∈ ("a\tb" : String).data ∧ ¬ '=' ∈ ("a\tb" : String).data)
    ∧ ProcessVariableAssignment env0 st0 "a b"
        = ⟨env0.setVar "a" "b", st0, [("a", "b")]⟩
    ∧ ProcessVariableAssignment env0 st0 "a=b"
        = ⟨env0.setVar "a" "b", st0, [("a", "b")]⟩
    ∧ ProcessVariableAssignment env0 st0 "a\tb"
        = ⟨env0.setVar "a\tb" "", st0, [("a\tb", "")]⟩
    ∧ (ProcessConfigData env0 (ProcessConfigFile env0 1) st0 "/sys/x 1\n/sys/y=2\n").trace
        = [("/sys/x", "1"), ("/sys/y", "2")] :=
  ⟨⟨by decide, by decide, by decide, by decide⟩,
    claim_C6 env0 env0 (ProcessConfigFile env0 1) st0 st0 "a" "b" "a" "b"
      "a b" "a=b" "a\tb"
      (by decide) (by decide) (by decide) (by decide) (by decide) (by decide)
      (by decide) (by decide) (by decide) (by decide) (by decide) (by decide)
      (by decide) (fun s => rfl)⟩

/-- C7: `GetConfigData` yields no configuration data for a missing file,
for a file smaller than the literal tag `@config`, and for a file whose
leading bytes differ from the tag — regardless of the remaining content —
and yields the full content exactly for files passing both checks. -/
theorem claim_C7 (env : Env) (f1 f2 f3 f4 : String) (c2 c3 c4 : String)
    (h1 : env.fs f1 = none)
    (h2 : env.fs f2 = some c2) (h2s : c2.length < CONFIG_TAG.length)
    (h3 : env.fs f3 = some c3)
    (h3t : ¬ c3.data.take CONFIG_TAG.length = CONFIG_TAG.data)
    (h4 : env.fs f4 = some c4) (h4s : CONFIG_TAG.length ≤ c4.length)
    (h4t : c4.data.take CONFIG_TAG.length = CONFIG_TAG.data) :
    GetConfigData env f1 = none
    ∧ GetConfigData env f2 = none
    ∧ GetConfigData env f3 = none
    ∧ GetConfigData env f4 = some c4 := by
  refine ⟨?_, ?_, ?_, ?_⟩
  · unfold GetConfigData
    rw [GetFileSize_none h1, if_neg (by decide)]
  · unfold GetConfigData
    rw [GetFileSize_some h2, if_neg (by omega)]
  · unfold GetConfigData
    rw [GetFileSize_some h3]
    have hcfg : IsConfigFile c3 = false := by
      simp [IsConfigFile, h3t]
    by_cases hle : CONFIG_TAG.length ≤ c3.length
    · rw [if_pos hle, h3]
      show (if IsConfigFile c3 = true then some c3 else none) = none
      rw [hcfg]
      rfl
    · rw [if_neg hle]
  · unfold GetConfigData
    rw [GetFileSize_some h4]
    have hcfg : IsConfigFile c4 = true := by
      simp [IsConfigFile, h4t]
    rw [if_pos h4s, h4]
    show (if IsConfigFile c4 = true then some c4 else none) = some c4
    rw [hcfg]
    rfl

/-- Witness for C7 on a missing file, a 2-byte file, a tagless file and a
valid configuration file. -/
theorem claim_C7_witness :
    (env7.fs "missing.cfg" = none
      ∧ env7.fs "short.cfg" = some "@c"
      ∧ ("@c" : String).length < CONFIG_TAG.length
      ∧ env7.fs "plain.txt" = some "hello world"
      ∧ ¬ ("hello world" : String).data.take CONFIG_TAG.length = CONFIG_TAG.data
      ∧ env7.fs "good.cfg" = some "@config ok\n/a 1\n"
      ∧ CONFIG_TAG.length ≤ ("@config ok\n/a 1\n" : String).length
      ∧ ("@config ok\n/a 1\n" : String).data.take CONFIG_TAG.length = CONFIG_TAG.data)
    ∧ GetConfigData env7 "missing.cfg" = none
    ∧ GetConfigData env7 "short.cfg" = none
    ∧ GetConfigData env7 "plain.txt" = none
    ∧ GetConfigData env7 "good.cfg" = some "@config ok\n/a 1\n" :=
  ⟨⟨rfl, rfl, by decide, rfl, by decide, rfl, by decide, by decide⟩,
    claim_C7 env7 "missing.cfg" "short.cfg" "plain.txt" "good.cfg"
      "@c" "hello world" "@config ok\n/a 1\n"
      rfl rfl (by decide) rfl (by decide) rfl (by decide) (by decide)⟩

/-- C8: an `@includedir` directive always reports `EOK` — also when the
directory cannot be opened — because every entry is processed with the
required flag cleared and every per-entry result code is dropped; for the
concrete directory `conf.d` holding one valid configuration file and one
plain text file, the valid file's assignment is applied and the other file
is silently ignored. -/
theorem claim_C8 :
    (∀ (env : Env) (pcf : LoadState → String → Out) (st : LoadState) (d : String),
        (ProcessIncludeDirDirective env pcf st d).res = EOK)
    ∧ (ProcessIncludeDirDirective envDir (ProcessConfigFile envDir 1) st0 "conf.d").res
        = EOK
    ∧ (ProcessIncludeDirDirective envDir (ProcessConfigFile envDir 1) st0 "conf.d").trace
        = [("/a", "1")]
    ∧ envDir.fs "junk.txt" = some "hello world, not a config"
    ∧ GetConfigData envDir "junk.txt" = none := by
  refine ⟨?_, by decide, by decide, rfl, by decide⟩
  intro env pcf st d
  unfold ProcessIncludeDirDirective
  split <;> rfl

/-- C9: the name an `@includedir` scan hands to `ProcessConfigFile` is the
entry's bare `d_name` with no directory path prefixed, so the entry is
looked up as a path relative to the process's current working directory:
with a single-entry directory the directive reduces to processing the bare
entry name, and in `envCwd` — where the file exists at `conf.d/a.cfg` but
not at `a.cfg` — no assignment of the file is applied. -/
theorem claim_C9 (env : Env) (pcf : LoadState → String → Out) (st : LoadState)
    (d e : String) (hdir : env.dirs d = some [e]) :
    ProcessIncludeDirDirective env pcf st d
      = ⟨EOK, (pcf { st with required := false } e).st,
          (pcf { st with required := false } e).trace⟩
    ∧ envCwd.fs "conf.d/a.cfg" = some "@config cwd\n/x 1\n"
    ∧ envCwd.fs "a.cfg" = none
    ∧ envCwd.dirs "conf.d" = some ["a.cfg"]
    ∧ (ProcessIncludeDirDirective envCwd (ProcessConfigFile envCwd 1) st0 "conf.d").trace
        = []
    ∧ (ProcessIncludeDirDirective envCwd (ProcessConfigFile envCwd 1) st0 "conf.d").res
        = EOK := by
  refine ⟨?_, rfl, rfl, rfl, by decide, by decide⟩
  unfold ProcessIncludeDirDirective
  rw [hdir]
  simp [IncludeDirStep]

/-- Witness for C9 on the single-entry directory of `envCwd`. -/
theorem claim_C9_witness :
    envCwd.dirs "conf.d" = some ["a.cfg"]
    ∧ (ProcessIncludeDirDirective envCwd (ProcessConfigFile envCwd 1) st0 "conf.d"
        = ⟨EOK, (ProcessConfigFile envCwd 1 { st0 with required := false } "a.cfg").st,
            (ProcessConfigFile envCwd 1 { st0 with required := false } "a.cfg").trace⟩
      ∧ envCwd.fs "conf.d/a.cfg" = some "@config cwd\n/x 1\n"
      ∧ envCwd.fs "a.cfg" = none
      ∧ envCwd.dirs "conf.d" = some ["a.cfg"]
      ∧ (ProcessIncludeDirDirective envCwd (ProcessConfigFile envCwd 1) st0 "conf.d").trace
          = []
      ∧ (ProcessIncludeDirDirective envCwd (ProcessConfigFile envCwd 1) st0 "conf.d").res
          = EOK) :=
  ⟨rfl, claim_C9 envCwd (ProcessConfigFile envCwd 1) st0 "conf.d" "a.cfg" rfl⟩

/-- C10: the terminating NUL of the buffer acts as a line terminator like
`\n`: text after the final newline is still processed as one complete
line, a buffer ending with a newline yields one additional final empty
line which (under an expansion that maps the empty line to itself) is
classified as blank, succeeds and still increments the line counter, and
the line counter is incremented exactly once per segment, failing and
skipped segments included. -/
theorem claim_C10 (env : Env) (pcf : LoadState → String → Out)
    (hpcf : ∀ st f, (pcf st f).st.lineno = st.lineno)
    (hempty : env.expand "" = (EOK, ""))
    (st st2 : LoadState) (res : ErrCode) (s t data : String)
    (hs : ¬ '\x00' ∈ s.data) (ht0 : ¬ '\x00' ∈ t.data) (ht1 : ¬ '\n' ∈ t.data) :
    configLines (s ++ "\n" ++ t) = configLines s ++ [t]
    ∧ configLines (s ++ "\n") = configLines s ++ [""]
    ∧ ProcessConfigDataLoop env pcf st2 res [""]
        = ⟨res, { st2 with lineno := st2.lineno + 1 }, []⟩
    ∧ (ProcessConfigData env pcf st data).st.lineno
        = st.lineno + (configLines data).length := by
  have hnl : ("\n" : String).data = ['\n'] := rfl
  refine ⟨?_, ?_, ?_, ?_⟩
  · unfold configLines
    rw [String.data_append, String.data_append, hnl, List.append_assoc,
      List.singleton_append, linesAux_append_newline s.data hs [] t.data,
      linesAux_plain t.data ht0 ht1 [], List.map_append]
    simp [string_eta]
  · unfold configLines
    rw [String.data_append, hnl,
      show s.data ++ ['\n'] = s.data ++ '\n' :: [] from rfl,
      linesAux_append_newline s.data hs [] [], List.map_append]
    rfl
  · rw [ProcessConfigDataLoop, hempty]
    simp only [ProcessConfigDataLoop]
    rfl
  · unfold ProcessConfigData
    rw [ProcessConfigDataLoop_characterization]
    exact linesState_lineno env pcf hpcf (configLines data) st

/-- Witness for C10 on the buffers `a\nb`, suffix `c`, and `x\ny\n`. -/
theorem claim_C10_witness :
    env0.expand "" = (EOK, "")
    ∧ configLines ("a\nb" ++ "\n" ++ "c") = configLines "a\nb" ++ ["c"]
    ∧ configLines ("a\nb" ++ "\n") = configLines "a\nb" ++ [""]
    ∧ ProcessConfigDataLoop env0 (ProcessConfigFile env0 1) st0 ENOENT [""]
        = ⟨ENOENT, { st0 with lineno := st0.lineno + 1 }, []⟩
    ∧ (ProcessConfigData env0 (ProcessConfigFile env0 1) st0 "x\ny\n").st.lineno
        = st0.lineno + (configLines "x\ny\n").length :=
  ⟨rfl,
    claim_C10 env0 (ProcessConfigFile env0 1)
      (fun st f => (ProcessConfigFile_frame env0 1 st f).2) rfl st0 st0 ENOENT
      "a\nb" "c" "x\ny\n" (by decide) (by decide) (by decide)⟩

end LoadConfig
